import Mathlib

/-!
Verification of the weathr terminal-rendering core: the diff-based screen
renderer (`src/render.rs`), the VT100/ANSI escape-sequence interpreter
(`src/shell/overlay.rs`), the key-event encoder (`src/shell/input.rs`) and
the PTY bridge's output queue (`src/shell/pty_handler.rs`).

Machine integers (`u16`, `u8`) are modelled as `Nat` with explicit
`% 2^16` / `% 2^8` at the places where the Rust arithmetic can wrap.
Operations that can panic in Rust (`Vec::remove` on an empty vector,
slice indexing out of bounds) are modelled as `Option`-returning
functions, `none` standing for the panic.
-/

namespace Weathr

/-- `crossterm::style::Color`, restricted to the constructors the sources use.
`AnsiValue` carries a `u8` palette index, `Rgb` three `u8` components. -/
inductive Color where
  | Reset
  | Black
  | Red
  | Green
  | Yellow
  | Blue
  | Magenta
  | Cyan
  | White
  | DarkGrey
  | AnsiValue (n : Nat)
  | Rgb (r g b : Nat)
  deriving DecidableEq, Repr

/-- 16-bit wrap, for `u16` arithmetic that can overflow. -/
def wrap16 (n : Nat) : Nat := n % 65536

/-- Wrapping `u16` subtraction of 1 (`x - 1` on a `u16` in release mode). -/
def sub1w (n : Nat) : Nat := (n + 65535) % 65536

theorem sub1w_eq (n : Nat) (h0 : 0 < n) (h1 : n < 65536) : sub1w n = n - 1 := by
  unfold sub1w
  omega

theorem wrap16_eq (n : Nat) (h : n < 65536) : wrap16 n = n := Nat.mod_eq_of_lt h

/-! ## Key-Event Encoder (`src/shell/input.rs`) -/

/-- `crossterm::event::KeyCode`, with `Other` standing for every variant the
encoder's catch-all arm maps to an empty vector. -/
inductive KeyCode where
  | Char (c : Char)
  | Enter
  | Backspace
  | Tab
  | Esc
  | Up
  | Down
  | Right
  | Left
  | Home
  | End
  | PageUp
  | PageDown
  | Delete
  | Insert
  | F (n : Nat)
  | Other
  deriving DecidableEq, Repr

/-- `crossterm::event::KeyModifiers` as three flags. -/
structure KeyModifiers where
  control : Bool
  alt : Bool
  shift : Bool
  deriving DecidableEq, Repr

/-- `char::to_ascii_uppercase` on the scalar value. -/
def asciiUppercase (c : Char) : Nat :=
  if 97 ≤ c.toNat ∧ c.toNat ≤ 122 then c.toNat - 32 else c.toNat

/-- UTF-8 encoding of a scalar value (`char::to_string().as_bytes()`). -/
def utf8Bytes (c : Char) : List Nat :=
  let n := c.toNat
  if n < 0x80 then [n]
  else if n < 0x800 then [0xC0 + n / 64, 0x80 + n % 64]
  else if n < 0x10000 then [0xE0 + n / 4096, 0x80 + n / 64 % 64, 0x80 + n % 64]
  else [0xF0 + n / 262144, 0x80 + n / 4096 % 64, 0x80 + n / 64 % 64, 0x80 + n % 64]

/-- `key_event_to_bytes` from `src/shell/input.rs`. -/
def key_event_to_bytes (code : KeyCode) (modifiers : KeyModifiers) : List Nat :=
  match code with
  | .Char c =>
    if modifiers.control then
      if c = ' ' ∨ c = '@' then [0x00]
      else if c = '?' then [0x7f]
      else [asciiUppercase c % 256 &&& 0x1f]
    else if modifiers.alt then
      0x1b :: utf8Bytes c
    else
      utf8Bytes c
  | .Enter => [0x0d]
  | .Backspace => [0x7f]
  | .Tab => if modifiers.shift then [0x1b, 0x5b, 0x5a] else [0x09]
  | .Esc => [0x1b]
  | .Up => [0x1b, 0x5b, 0x41]
  | .Down => [0x1b, 0x5b, 0x42]
  | .Right => [0x1b, 0x5b, 0x43]
  | .Left => [0x1b, 0x5b, 0x44]
  | .Home => [0x1b, 0x5b, 0x48]
  | .End => [0x1b, 0x5b, 0x46]
  | .PageUp => [0x1b, 0x5b, 0x35, 0x7e]
  | .PageDown => [0x1b, 0x5b, 0x36, 0x7e]
  | .Delete => [0x1b, 0x5b, 0x33, 0x7e]
  | .Insert => [0x1b, 0x5b, 0x32, 0x7e]
  | .F 1 => [0x1b, 0x4f, 0x50]
  | .F 2 => [0x1b, 0x4f, 0x51]
  | .F 3 => [0x1b, 0x4f, 0x52]
  | .F 4 => [0x1b, 0x4f, 0x53]
  | .F 5 => [0x1b, 0x5b, 0x31, 0x35, 0x7e]
  | .F 6 => [0x1b, 0x5b, 0x31, 0x37, 0x7e]
  | .F 7 => [0x1b, 0x5b, 0x31, 0x38, 0x7e]
  | .F 8 => [0x1b, 0x5b, 0x31, 0x39, 0x7e]
  | .F 9 => [0x1b, 0x5b, 0x32, 0x30, 0x7e]
  | .F 10 => [0x1b, 0x5b, 0x32, 0x31, 0x7e]
  | .F 11 => [0x1b, 0x5b, 0x32, 0x33, 0x7e]
  | .F 12 => [0x1b, 0x5b, 0x32, 0x34, 0x7e]
  | .F _ => []
  | .Other => []

/-! ## PTY bridge output queue (`src/shell/pty_handler.rs`) -/

/-- Result of `PtyHandler::read_output`: `io::Result<Vec<u8>>`, with the
broken-pipe error as the failure case. -/
inductive ReadOutcome where
  | ok (chunk : List Nat)
  | brokenPipe
  deriving DecidableEq, Repr

/-- Modelled from the spec: the unbounded output queue fed by the background
reader thread (a `tokio` unbounded mpsc channel, external to the repository).
`queue` holds the chunks sent but not yet received, in order; `closed` is
true once the reader thread has exited and dropped the sender.  `try_recv`
yields the front chunk if any, otherwise reports empty or disconnected
according to `closed`. -/
structure OutputChannel where
  queue : List (List Nat)
  closed : Bool
  deriving DecidableEq, Repr

/-- `PtyHandler::read_output`: non-blocking `try_recv`, mapping a received
chunk to `Ok(data)`, an empty open channel to `Ok(vec![])`, and a closed
empty channel to a `BrokenPipe` error. -/
def read_output (ch : OutputChannel) : ReadOutcome × OutputChannel :=
  match ch.queue with
  | chunk :: rest => (.ok chunk, { ch with queue := rest })
  | [] =>
    if ch.closed then (.brokenPipe, ch)
    else (.ok [], ch)

/-! ## Escape-sequence interpreter (`src/shell/overlay.rs`) -/

/-- A cell of the shell overlay grid. -/
structure Cell where
  character : Char
  fg_color : Color
  bg_color : Color
  deriving DecidableEq, Repr

/-- `Cell::default()`: a space with terminal-default colors. -/
def Cell.default : Cell := ⟨' ', .Reset, .Reset⟩

/-- `OverlayState` from `src/shell/overlay.rs`.  `u16` fields are `Nat`s
kept below `2^16`. -/
structure OverlayState where
  cells : List (List Cell)
  cursor_x : Nat
  cursor_y : Nat
  cursor_visible : Bool
  width : Nat
  height : Nat
  current_fg_color : Color
  current_bg_color : Color
  saved_cursor_x : Nat
  saved_cursor_y : Nat
  deriving DecidableEq, Repr

namespace OverlayState

/-- `ShellOverlay::new(width, height)`. -/
def new (width height : Nat) : OverlayState where
  cells := List.replicate height (List.replicate width Cell.default)
  cursor_x := 0
  cursor_y := 0
  cursor_visible := true
  width := width
  height := height
  current_fg_color := .Reset
  current_bg_color := .Reset
  saved_cursor_x := 0
  saved_cursor_y := 0

/-- `ShellOverlay::resize(width, height)`: reallocate the grid to default
cells and home the cursor; every other field is untouched. -/
def resize (s : OverlayState) (width height : Nat) : OverlayState :=
  { s with
    width := width
    height := height
    cells := List.replicate height (List.replicate width Cell.default)
    cursor_x := 0
    cursor_y := 0 }

/-- The assignment `self.cells[y][x] = c`: `none` models the panic when an
index is out of range of the allocated vectors. -/
def setCell (cells : List (List Cell)) (y x : Nat) (c : Cell) :
    Option (List (List Cell)) :=
  match cells[y]? with
  | none => none
  | some row =>
    if x < row.length then some (cells.set y (row.set x c)) else none

/-- `OverlayState::write_char`: guarded write at the cursor. -/
def write_char (s : OverlayState) (c : Char) : Option OverlayState :=
  if s.cursor_x < s.width ∧ s.cursor_y < s.height then
    match setCell s.cells s.cursor_y s.cursor_x
        ⟨c, s.current_fg_color, s.current_bg_color⟩ with
    | none => none
    | some cells => some { s with cells := cells }
  else
    some s

/-- `OverlayState::scroll_up`: `Vec::remove(0)` (panics on an empty vector)
then push a fresh default row. -/
def scroll_up (s : OverlayState) : Option OverlayState :=
  match s.cells with
  | [] => none
  | _ :: rest =>
    some { s with cells := rest ++ [List.replicate s.width Cell.default] }

/-- `OverlayState::advance_cursor`. -/
def advance_cursor (s : OverlayState) : Option OverlayState :=
  let x := wrap16 (s.cursor_x + 1)
  if x ≥ s.width then
    let y := wrap16 (s.cursor_y + 1)
    if y ≥ s.height then
      match scroll_up { s with cursor_x := 0, cursor_y := y } with
      | none => none
      | some s' => some { s' with cursor_y := sub1w s'.height }
    else
      some { s with cursor_x := 0, cursor_y := y }
  else
    some { s with cursor_x := x }

/-- `OverlayState::clear_to_end`: blank from the cursor to the end of the
line, then every full line below the cursor. -/
def clear_to_end (s : OverlayState) : Option OverlayState := do
  let cs1 ← (List.range' s.cursor_x (s.width - s.cursor_x)).foldlM
    (fun cs x =>
      if s.cursor_y < s.height then setCell cs s.cursor_y x Cell.default
      else pure cs)
    s.cells
  let yStart := wrap16 (s.cursor_y + 1)
  let cs2 ← (List.range' yStart (s.height - yStart)).foldlM
    (fun cs y =>
      (List.range s.width).foldlM (fun cs x => setCell cs y x Cell.default) cs)
    cs1
  pure { s with cells := cs2 }

/-- `OverlayState::clear_screen`: every cell of every row to default. -/
def clear_screen (s : OverlayState) : OverlayState :=
  { s with cells := s.cells.map (fun row => row.map (fun _ => Cell.default)) }

/-- `OverlayState::clear_line_to_end`. -/
def clear_line_to_end (s : OverlayState) : Option OverlayState :=
  if s.cursor_y < s.height then do
    let cs ← (List.range' s.cursor_x (s.width - s.cursor_x)).foldlM
      (fun cs x => setCell cs s.cursor_y x Cell.default) s.cells
    pure { s with cells := cs }
  else
    pure s

/-- `OverlayState::clear_line`. -/
def clear_line (s : OverlayState) : Option OverlayState :=
  if s.cursor_y < s.height then do
    let cs ← (List.range s.width).foldlM
      (fun cs x => setCell cs s.cursor_y x Cell.default) s.cells
    pure { s with cells := cs }
  else
    pure s

end OverlayState

/-- `params.iter().next().and_then(|p| p.first()).copied().unwrap_or(d)`:
the first subparameter of the first CSI parameter, or the default. -/
def firstParam (params : List (List Nat)) (d : Nat) : Nat :=
  match params with
  | [] => d
  | p :: _ =>
    match p with
    | [] => d
    | v :: _ => v

/-- `params.iter().nth(1).and_then(|p| p.first()).copied().unwrap_or(d)`. -/
def secondParam (params : List (List Nat)) (d : Nat) : Nat :=
  match params with
  | _ :: p :: _ =>
    match p with
    | [] => d
    | v :: _ => v
  | _ => d

namespace OverlayState

/-- The single-code arms of `OverlayState::parse_sgr`'s `match param[0]`:
`0` resets both colors, `30–37`/`90–97` set the named/bright foreground,
`40–47` the named background, `39`/`49` reset one color, and any other
code (bold, italic, …) is ignored.  Codes 38 and 48 are the multi-
parameter forms handled in `parse_sgr_go` itself. -/
def sgrApplyCode (s : OverlayState) (v : Nat) : OverlayState :=
  match v with
  | 0 => { s with current_fg_color := .Reset, current_bg_color := .Reset }
  | 30 => { s with current_fg_color := .Black }
  | 31 => { s with current_fg_color := .Red }
  | 32 => { s with current_fg_color := .Green }
  | 33 => { s with current_fg_color := .Yellow }
  | 34 => { s with current_fg_color := .Blue }
  | 35 => { s with current_fg_color := .Magenta }
  | 36 => { s with current_fg_color := .Cyan }
  | 37 => { s with current_fg_color := .White }
  | 39 => { s with current_fg_color := .Reset }
  | 40 => { s with current_bg_color := .Black }
  | 41 => { s with current_bg_color := .Red }
  | 42 => { s with current_bg_color := .Green }
  | 43 => { s with current_bg_color := .Yellow }
  | 44 => { s with current_bg_color := .Blue }
  | 45 => { s with current_bg_color := .Magenta }
  | 46 => { s with current_bg_color := .Cyan }
  | 47 => { s with current_bg_color := .White }
  | 49 => { s with current_bg_color := .Reset }
  | 90 => { s with current_fg_color := .DarkGrey }
  | 91 => { s with current_fg_color := .Red }
  | 92 => { s with current_fg_color := .Green }
  | 93 => { s with current_fg_color := .Yellow }
  | 94 => { s with current_fg_color := .Blue }
  | 95 => { s with current_fg_color := .Magenta }
  | 96 => { s with current_fg_color := .Cyan }
  | 97 => { s with current_fg_color := .White }
  | _ => s

/-- The extended-color argument consumption of SGR codes 38/48: from the
parameters remaining after the 38/48 itself, read `5;N` (palette) or
`2;R;G;B` (true color).  Returns `none` for the `slice[0]` panic on an
empty parameter slice, otherwise the color to set (if the form was
complete) and the parameters left for the iterator, mirroring exactly how
many times `iter.next()` was called. -/
def sgrColorArg : List (List Nat) → Option (Option Color × List (List Nat))
  | [] => some (none, [])
  | next :: rest2 =>
    match next with
    | [] => none
    | nv :: _ =>
      if nv = 5 then
        match rest2 with
        | [] => some (none, [])
        | cp :: rest3 =>
          match cp with
          | [] => none
          | cv :: _ => some (some (.AnsiValue (cv % 256)), rest3)
      else if nv = 2 then
        match rest2 with
        | [] => some (none, [])
        | [_] => some (none, [])
        | [_, _] => some (none, [])
        | r :: g :: b :: rest5 =>
          match r with
          | [] => none
          | rv :: _ =>
            match g with
            | [] => none
            | gv :: _ =>
              match b with
              | [] => none
              | bv :: _ => some (some (.Rgb (rv % 256) (gv % 256) (bv % 256)), rest5)
      else
        some (none, rest2)

/-- One iteration of `OverlayState::parse_sgr`'s `while let` loop: apply
the first parameter's code to the state and return the parameters the
iterator has not yet consumed; `none` models the `param[0]` panic on an
empty slice. -/
def sgrStep (s : OverlayState) (p : List Nat) (rest : List (List Nat)) :
    Option (OverlayState × List (List Nat)) :=
  match p with
  | [] => none
  | v :: _ =>
    if v = 38 then
      match sgrColorArg rest with
      | none => none
      | some (some c, remaining) => some ({ s with current_fg_color := c }, remaining)
      | some (none, remaining) => some (s, remaining)
    else if v = 48 then
      match sgrColorArg rest with
      | none => none
      | some (some c, remaining) => some ({ s with current_bg_color := c }, remaining)
      | some (none, remaining) => some (s, remaining)
    else
      some (sgrApplyCode s v, rest)

/-- `OverlayState::parse_sgr`'s `while let` loop.  Each iteration consumes
at least one parameter, so the parameter count bounds the number of
iterations; `fuel` carries that bound to make the recursion structural.
The zero-fuel arm with parameters left is unreachable whenever
`ps.length ≤ fuel`. -/
def parse_sgr_go : Nat → OverlayState → List (List Nat) → Option OverlayState
  | _, s, [] => some s
  | 0, _, _ :: _ => none
  | fuel + 1, s, p :: rest =>
    match sgrStep s p rest with
    | none => none
    | some (s2, remaining) => parse_sgr_go fuel s2 remaining

/-- `OverlayState::parse_sgr`. -/
def parse_sgr (s : OverlayState) (params : List (List Nat)) : Option OverlayState :=
  parse_sgr_go params.length s params

/-- `Perform::print` for `OverlayState`: write then advance. -/
def print (s : OverlayState) (c : Char) : Option OverlayState := do
  let s ← s.write_char c
  s.advance_cursor

/-- `Perform::execute` for `OverlayState`: C0 control bytes. -/
def execute (s : OverlayState) (byte : Nat) : Option OverlayState :=
  if byte = 0x08 then
    some (if s.cursor_x > 0 then { s with cursor_x := s.cursor_x - 1 } else s)
  else if byte = 0x09 then
    let x := wrap16 ((s.cursor_x / 8 + 1) * 8)
    if x ≥ s.width then
      let y := wrap16 (s.cursor_y + 1)
      if y ≥ s.height then
        match scroll_up { s with cursor_x := 0, cursor_y := y } with
        | none => none
        | some s' => some { s' with cursor_y := sub1w s'.height }
      else
        some { s with cursor_x := 0, cursor_y := y }
    else
      some { s with cursor_x := x }
  else if byte = 0x0A then
    let y := wrap16 (s.cursor_y + 1)
    if y ≥ s.height then
      match scroll_up { s with cursor_y := y } with
      | none => none
      | some s' => some { s' with cursor_y := sub1w s'.height }
    else
      some { s with cursor_y := y }
  else if byte = 0x0D then
    some { s with cursor_x := 0 }
  else if byte = 0x0C then
    some { s.clear_screen with cursor_x := 0, cursor_y := 0 }
  else
    some s

/-- `Perform::csi_dispatch` for `OverlayState`. -/
def csi_dispatch (s : OverlayState) (params : List (List Nat)) (action : Char) :
    Option OverlayState :=
  match action with
  | 'H' | 'f' =>
    let row := firstParam params 1 - 1
    let col := secondParam params 1 - 1
    some { s with
      cursor_y := min row (s.height - 1)
      cursor_x := min col (s.width - 1) }
  | 'A' =>
    let n := firstParam params 1
    some { s with cursor_y := s.cursor_y - n }
  | 'B' =>
    let n := firstParam params 1
    some { s with cursor_y := min (wrap16 (s.cursor_y + n)) (sub1w s.height) }
  | 'C' =>
    let n := firstParam params 1
    some { s with cursor_x := min (wrap16 (s.cursor_x + n)) (sub1w s.width) }
  | 'D' =>
    let n := firstParam params 1
    some { s with cursor_x := s.cursor_x - n }
  | 'J' =>
    let mode := firstParam params 0
    if mode = 0 then s.clear_to_end
    else if mode = 1 then some s
    else if mode = 2 ∨ mode = 3 then
      some { s.clear_screen with cursor_x := 0, cursor_y := 0 }
    else some s
  | 'K' =>
    let mode := firstParam params 0
    if mode = 0 then s.clear_line_to_end
    else if mode = 1 then some s
    else if mode = 2 then s.clear_line
    else some s
  | 'm' => s.parse_sgr params
  | 'h' =>
    match params with
    | [] => some s
    | p :: _ =>
      match p with
      | [] => some s
      | v :: _ => if v = 25 then some { s with cursor_visible := true } else some s
  | 'l' =>
    match params with
    | [] => some s
    | p :: _ =>
      match p with
      | [] => some s
      | v :: _ => if v = 25 then some { s with cursor_visible := false } else some s
  | 's' =>
    some { s with saved_cursor_x := s.cursor_x, saved_cursor_y := s.cursor_y }
  | 'u' =>
    some { s with cursor_x := s.saved_cursor_x, cursor_y := s.saved_cursor_y }
  | _ => some s

end OverlayState

/-- A parsed terminal event: the tagged union of `Perform` callbacks the
overlay implements non-trivially (printable character, C0 control byte,
CSI parameters plus final action letter). -/
inductive VtEvent where
  | print (c : Char)
  | control (byte : Nat)
  | csi (params : List (List Nat)) (action : Char)
  deriving DecidableEq, Repr

/-- Dispatch of one parsed event to the `Perform` impl of `OverlayState`. -/
def applyEvent (s : OverlayState) (e : VtEvent) : Option OverlayState :=
  match e with
  | .print c => s.print c
  | .control b => s.execute b
  | .csi ps a => s.csi_dispatch ps a

/-- A sequence of parsed events. -/
def applyEvents (s : OverlayState) (es : List VtEvent) : Option OverlayState :=
  es.foldlM applyEvent s

/-- An interpreter operation as seen by the Shell Manager: either a parsed
byte-stream event or a `resize` call. -/
inductive InterpOp where
  | event (e : VtEvent)
  | resize (width height : Nat)
  deriving DecidableEq, Repr

/-- Apply one interpreter operation. -/
def applyOp (s : OverlayState) (op : InterpOp) : Option OverlayState :=
  match op with
  | .event e => applyEvent s e
  | .resize w h => some (s.resize w h)

/-- Apply a sequence of interpreter operations. -/
def applyOps (s : OverlayState) (ops : List InterpOp) : Option OverlayState :=
  ops.foldlM applyOp s

/-! ### Byte tokenizer

Modelled from the spec: the byte-oriented tokenizer (the `vte::Parser`
dependency, which is not part of this repository) that classifies the raw
byte stream into printable characters, control bytes (0x00–0x1F), and CSI
groups of numeric parameters plus one final action letter.  Numeric
parameters are accumulated in base 10 (saturating at `u16::MAX`),
separated by `;` (a missing value reads as 0), and a final byte in
0x40–0x7E dispatches the sequence; C0 bytes inside a sequence are executed
as control bytes. -/
inductive TokState where
  | ground
  | esc
  | csi (params : List (List Nat)) (cur : Option Nat)
  deriving DecidableEq, Repr

/-- Modelled from the spec: one tokenizer transition on one byte, returning
the next state and the events emitted. -/
def tokStep (st : TokState) (b : Nat) : TokState × List VtEvent :=
  match st with
  | .ground =>
    if b = 0x1B then (.esc, [])
    else if b < 0x20 then (.ground, [.control b])
    else (.ground, [.print (Char.ofNat b)])
  | .esc =>
    if b = 0x5B then (.csi [] none, [])
    else if b = 0x1B then (.esc, [])
    else (.ground, [])
  | .csi ps cur =>
    if 0x30 ≤ b ∧ b ≤ 0x39 then
      (.csi ps (some (min (cur.getD 0 * 10 + (b - 0x30)) 65535)), [])
    else if b = 0x3B then
      (.csi (ps ++ [[cur.getD 0]]) none, [])
    else if 0x40 ≤ b ∧ b ≤ 0x7E then
      let params := if ps = [] ∧ cur = none then [] else ps ++ [[cur.getD 0]]
      (.ground, [.csi params (Char.ofNat b)])
    else if b < 0x20 then
      (.csi ps cur, [.control b])
    else
      (.csi ps cur, [])

/-- Modelled from the spec: run the tokenizer over a byte sequence. -/
def tokRun (st : TokState) (bytes : List Nat) : TokState × List VtEvent :=
  match bytes with
  | [] => (st, [])
  | b :: rest =>
    let (st', es) := tokStep st b
    let (st'', es') := tokRun st' rest
    (st'', es ++ es')

/-- Modelled from the spec: tokenize a byte sequence starting from the
ground state. -/
def tokenize (bytes : List Nat) : List VtEvent :=
  (tokRun .ground bytes).2

/-- `ShellOverlay::process_output` on one chunk: tokenize the bytes and
feed the parsed events to the `Perform` impl. -/
def process_output (s : OverlayState) (bytes : List Nat) : Option OverlayState :=
  applyEvents s (tokenize bytes)

/-- Bytes of a Rust byte-string literal. -/
def strBytes (s : String) : List Nat := s.toList.map Char.toNat

/-! ## Screen Buffer / diff renderer (`src/render.rs`) -/

/-- A cell of the diff renderer's buffers (`render.rs`'s `Cell`). -/
structure RCell where
  character : Char
  color : Color
  deriving DecidableEq, Repr

/-- `Cell::default()` of `render.rs`. -/
def RCell.default : RCell := ⟨' ', .Reset⟩

/-- `TerminalRenderer`, minus the `Stdout` handle: the two row-major
buffers and the dimensions. -/
structure TerminalRenderer where
  width : Nat
  height : Nat
  buffer : List RCell
  last_buffer : List RCell
  deriving DecidableEq, Repr

/-- One draw operation queued to the terminal during `flush`. -/
inductive DrawOp where
  | moveTo (x y : Nat)
  | setForegroundColor (c : Color)
  | printChar (c : Char)
  | resetColor
  deriving DecidableEq, Repr

namespace TerminalRenderer

/-- A blank renderer of the given size (`TerminalRenderer::new`, with the
terminal reporting `width × height`). -/
def new (width height : Nat) : TerminalRenderer where
  width := width
  height := height
  buffer := List.replicate (width * height) RCell.default
  last_buffer := List.replicate (width * height) RCell.default

/-- `TerminalRenderer::render_char` (the spec's `set(x,y,char,color)`):
bounds-guarded write into the current buffer. -/
def render_char (r : TerminalRenderer) (x y : Nat) (ch : Char) (color : Color) :
    TerminalRenderer :=
  if x < r.width ∧ y < r.height then
    let idx := y * r.width + x
    if idx < r.buffer.length then
      { r with buffer := r.buffer.set idx ⟨ch, color⟩ }
    else r
  else r

/-- `TerminalRenderer::clear`: blank the current buffer only. -/
def clear (r : TerminalRenderer) : TerminalRenderer :=
  { r with buffer := r.buffer.map (fun _ => RCell.default) }

/-- The running state of the `flush` scan: queued operations, the last
emitted color, and the last write position. -/
structure FlushAcc where
  ops : List DrawOp
  current_color : Color
  last_pos : Option (Nat × Nat)
  deriving DecidableEq, Repr

/-- The body of `flush`'s double loop for one `(x, y)`: skip when either
buffer is too short, otherwise emit for a differing cell a cursor move
(unless the previous emitted cell is immediately to the left), a color
change, and the character. -/
def flushCell (r : TerminalRenderer) (acc : FlushAcc) (p : Nat × Nat) : FlushAcc :=
  let (x, y) := p
  let idx := y * r.width + x
  match r.buffer.get? idx, r.last_buffer.get? idx with
  | some cell, some last_cell =>
    if cell ≠ last_cell then
      let expected := acc.last_pos.map (fun q => (q.1 + 1, q.2))
      let ops1 := if expected ≠ some (x, y) then acc.ops ++ [.moveTo x y] else acc.ops
      let (ops2, color) :=
        if cell.color ≠ acc.current_color then
          (ops1 ++ [.setForegroundColor cell.color], cell.color)
        else (ops1, acc.current_color)
      { ops := ops2 ++ [.printChar cell.character]
        current_color := color
        last_pos := some (x, y) }
    else acc
  | _, _ => acc

/-- The row-major scan order of `flush`. -/
def scanPoints (r : TerminalRenderer) : List (Nat × Nat) :=
  (List.range r.height).flatMap (fun y => (List.range r.width).map (fun x => (x, y)))

/-- `TerminalRenderer::flush`: scan for differing cells, queue the draw
operations, emit a trailing reset if the last color was not the default,
and copy `current` into `previous`.  The final `copy_from_slice` panics
(`none`) when the two buffers have different lengths. -/
def flush (r : TerminalRenderer) : Option (List DrawOp × TerminalRenderer) :=
  let acc := (r.scanPoints).foldl (flushCell r) ⟨[], .Reset, none⟩
  let ops :=
    if acc.current_color ≠ Color.Reset then acc.ops ++ [.resetColor] else acc.ops
  if r.last_buffer.length = r.buffer.length then
    some (ops, { r with last_buffer := r.buffer })
  else
    none

end TerminalRenderer

/-- A screen-buffer cell with an explicit background color, for the
background-aware write path. -/
structure BgCell where
  character : Char
  fg_color : Color
  bg_color : Color
  deriving DecidableEq, Repr

/-- A screen buffer carrying background colors, for the background-aware
write path. -/
structure BgBuffer where
  width : Nat
  height : Nat
  buffer : List BgCell
  deriving DecidableEq, Repr

/-- Modelled from the spec: the Screen Buffer's `set_with_bg(x,y,char,fg,bg)`
operation (the renderer method `write_cell` called from
`ShellOverlay::render`, absent from `src/render.rs`): it "writes within
bounds and is a silent no-op out of bounds (never fails)". -/
def set_with_bg (b : BgBuffer) (x y : Nat) (ch : Char) (fg bg : Color) : BgBuffer :=
  if x < b.width ∧ y < b.height then
    { b with buffer := b.buffer.set (y * b.width + x) ⟨ch, fg, bg⟩ }
  else b

/-! ## Well-formedness -/

/-- A row-major grid of exactly `h` rows of `w` cells. -/
def gridShape (cells : List (List Cell)) (w h : Nat) : Prop :=
  cells.length = h ∧ ∀ row ∈ cells, row.length = w

/-- The grid allocated by `ShellOverlay::new`/`resize`: `height` rows of
`width` cells, with both `u16` dimensions positive. -/
def gridWf (s : OverlayState) : Prop :=
  0 < s.width ∧ 0 < s.height ∧ s.width < 65536 ∧ s.height < 65536 ∧
    gridShape s.cells s.width s.height

/-- Both cursor positions lie inside the grid. -/
def cursorsInBounds (s : OverlayState) : Prop :=
  s.cursor_x < s.width ∧ s.cursor_y < s.height ∧
    s.saved_cursor_x < s.width ∧ s.saved_cursor_y < s.height

/-- Every CSI parameter slice a well-formed tokenizer emits is non-empty. -/
def eventWf (e : VtEvent) : Prop :=
  match e with
  | .csi ps _ => ∀ p ∈ ps, p ≠ []
  | _ => True

instance : ∀ cells w h, Decidable (gridShape cells w h) := fun cells w h => by
  unfold gridShape; infer_instance

instance : DecidablePred gridWf := fun s => by unfold gridWf; infer_instance

instance : DecidablePred cursorsInBounds := fun s => by
  unfold cursorsInBounds; infer_instance

instance : DecidablePred eventWf := fun e => by
  unfold eventWf; cases e <;> infer_instance

/-! ## Grid helper lemmas -/

theorem gridShape_set {cells : List (List Cell)} {w h : Nat}
    (hs : gridShape cells w h) (y : Nat) {row : List Cell} (hrow : row.length = w) :
    gridShape (cells.set y row) w h := by
  obtain ⟨hlen, hrows⟩ := hs
  refine ⟨by simp [hlen], ?_⟩
  intro r hmem
  rcases List.mem_or_eq_of_mem_set hmem with hmem' | rfl
  · exact hrows _ hmem'
  · exact hrow

/-- In a well-shaped grid, an in-bounds `setCell` succeeds and replaces
exactly the addressed row. -/
theorem setCell_eq {cells : List (List Cell)} {w h y x : Nat} (c : Cell)
    (hs : gridShape cells w h) (hy : y < h) (hx : x < w) :
    OverlayState.setCell cells y x c =
      some (cells.set y ((cells.getD y []).set x c)) := by
  obtain ⟨hlen, hrows⟩ := hs
  have hy' : y < cells.length := by omega
  have hrow : cells[y]? = some cells[y] := List.getElem?_eq_getElem hy'
  have hrl : cells[y].length = w := hrows _ (List.getElem_mem hy')
  have hgetD : cells.getD y [] = cells[y] := List.getD_eq_getElem cells [] hy'
  simp only [OverlayState.setCell, hrow, hgetD]
  rw [if_pos (by omega)]

/-- An in-bounds `setCell` on a well-shaped grid succeeds and preserves
the shape. -/
theorem setCell_some {cells : List (List Cell)} {w h y x : Nat} (c : Cell)
    (hs : gridShape cells w h) (hy : y < h) (hx : x < w) :
    ∃ cells', OverlayState.setCell cells y x c = some cells' ∧
      gridShape cells' w h := by
  refine ⟨_, setCell_eq c hs hy hx, ?_⟩
  refine gridShape_set hs y ?_
  have hy' : y < cells.length := by
    obtain ⟨hlen, -⟩ := hs; omega
  have : cells.getD y [] = cells[y] := List.getD_eq_getElem cells [] hy'
  rw [this, List.length_set]
  exact hs.2 _ (List.getElem_mem hy')

/-- Folding a monadic step that is `pure` is the identity. -/
theorem foldlM_pure {α β : Type} (xs : List β) (a : α) :
    xs.foldlM (fun cs _ => (pure cs : Option α)) a = some a := by
  induction xs with
  | nil => rfl
  | cons b t ih => simpa using ih

/-- Blanking a list of in-bounds columns of one in-bounds row succeeds and
preserves the grid shape. -/
theorem foldlM_setCell_row {w h y : Nat} (hy : y < h) (xs : List Nat) :
    ∀ (cells : List (List Cell)), gridShape cells w h → (∀ x ∈ xs, x < w) →
      ∃ cells',
        xs.foldlM (fun cs x => OverlayState.setCell cs y x Cell.default) cells =
          some cells' ∧ gridShape cells' w h := by
  induction xs with
  | nil => intro cells hs _; exact ⟨cells, rfl, hs⟩
  | cons a t ih =>
    intro cells hs hxs
    obtain ⟨cells1, h1, hs1⟩ :=
      setCell_some Cell.default hs hy (hxs a (by simp))
    obtain ⟨cells', h2, hs2⟩ := ih cells1 hs1 (fun x hx => hxs x (by simp [hx]))
    refine ⟨cells', ?_, hs2⟩
    rw [List.foldlM_cons, h1]
    simpa using h2

/-- Blanking whole in-bounds rows succeeds and preserves the grid shape. -/
theorem foldlM_setCell_rows {w h : Nat} (ys : List Nat) :
    ∀ (cells : List (List Cell)), gridShape cells w h → (∀ y ∈ ys, y < h) →
      ∃ cells',
        ys.foldlM
          (fun cs y =>
            (List.range w).foldlM
              (fun cs x => OverlayState.setCell cs y x Cell.default) cs)
          cells = some cells' ∧ gridShape cells' w h := by
  induction ys with
  | nil => intro cells hs _; exact ⟨cells, rfl, hs⟩
  | cons a t ih =>
    intro cells hs hys
    obtain ⟨cells1, h1, hs1⟩ :=
      foldlM_setCell_row (hys a (by simp)) (List.range w) cells hs
        (fun x hx => List.mem_range.mp hx)
    obtain ⟨cells', h2, hs2⟩ := ih cells1 hs1 (fun y hy => hys y (by simp [hy]))
    refine ⟨cells', ?_, hs2⟩
    rw [List.foldlM_cons, h1]
    simpa using h2

/-! ## SGR lemmas -/

/-- A single SGR code only recolors: it never touches the grid, cursor, or
any other field. -/
theorem sgrApplyCode_effect (s : OverlayState) (v : Nat) :
    ∃ fg bg, OverlayState.sgrApplyCode s v =
      { s with current_fg_color := fg, current_bg_color := bg } := by
  unfold OverlayState.sgrApplyCode
  split <;> exact ⟨_, _, rfl⟩

/-- On non-empty parameter slices, consuming an extended-color argument
never panics, consumes only parameters from the remainder, and never
lengthens it. -/
theorem sgrColorArg_spec (rest : List (List Nat)) (hq : ∀ q ∈ rest, q ≠ []) :
    ∃ copt remaining, OverlayState.sgrColorArg rest = some (copt, remaining) ∧
      remaining.length ≤ rest.length ∧ ∀ q ∈ remaining, q ∈ rest := by
  rcases rest with - | ⟨next, rest2⟩
  · exact ⟨none, [], rfl, Nat.le_refl _, by simp⟩
  rcases next with - | ⟨nv, nt⟩
  · exact absurd (hq [] (List.mem_cons_self _ _)) (fun h => h rfl)
  by_cases h5 : nv = 5
  · subst h5
    rcases rest2 with - | ⟨cp, rest3⟩
    · exact ⟨none, [], by simp [OverlayState.sgrColorArg], by simp, by simp⟩
    rcases cp with - | ⟨cv, ct⟩
    · exact absurd (hq [] (by simp)) (fun h => h rfl)
    refine ⟨some (.AnsiValue (cv % 256)), rest3,
      by simp [OverlayState.sgrColorArg], by simp; omega, ?_⟩
    intro q hq'
    simp [hq']
  by_cases h2 : nv = 2
  · subst h2
    rcases rest2 with - | ⟨r, rest2'⟩
    · exact ⟨none, [], by simp [OverlayState.sgrColorArg, h5], by simp, by simp⟩
    rcases rest2' with - | ⟨g, rest2''⟩
    · exact ⟨none, [], by simp [OverlayState.sgrColorArg, h5], by simp, by simp⟩
    rcases rest2'' with - | ⟨b, rest5⟩
    · exact ⟨none, [], by simp [OverlayState.sgrColorArg, h5], by simp, by simp⟩
    rcases r with - | ⟨rv, rt⟩
    · exact absurd (hq [] (by simp)) (fun h => h rfl)
    rcases g with - | ⟨gv, gt⟩
    · exact absurd (hq [] (by simp)) (fun h => h rfl)
    rcases b with - | ⟨bv, bt⟩
    · exact absurd (hq [] (by simp)) (fun h => h rfl)
    refine ⟨some (.Rgb (rv % 256) (gv % 256) (bv % 256)), rest5,
      by simp [OverlayState.sgrColorArg, h5], by simp; omega, ?_⟩
    intro q hq'
    simp [hq']
  · refine ⟨none, rest2, by simp [OverlayState.sgrColorArg, h5, h2], by simp, ?_⟩
    intro q hq'
    simp [hq']

/-- One SGR loop iteration on well-formed parameters succeeds, only
recolors the state, and leaves a suffix-bounded remainder of well-formed
parameters. -/
theorem sgrStep_spec (s : OverlayState) (p : List Nat) (rest : List (List Nat))
    (hp : p ≠ []) (hq : ∀ q ∈ rest, q ≠ []) :
    ∃ fg bg remaining, OverlayState.sgrStep s p rest =
      some ({ s with current_fg_color := fg, current_bg_color := bg }, remaining) ∧
      remaining.length ≤ rest.length ∧ ∀ q ∈ remaining, q ∈ rest := by
  rcases p with - | ⟨v, vt⟩
  · exact absurd rfl hp
  by_cases h38 : v = 38
  · obtain ⟨copt, remaining, harg, hlen, hmem⟩ := sgrColorArg_spec rest hq
    rcases copt with - | c
    · exact ⟨s.current_fg_color, s.current_bg_color, remaining,
        by simp [OverlayState.sgrStep, h38, harg], hlen, hmem⟩
    · exact ⟨c, s.current_bg_color, remaining,
        by simp [OverlayState.sgrStep, h38, harg], hlen, hmem⟩
  by_cases h48 : v = 48
  · obtain ⟨copt, remaining, harg, hlen, hmem⟩ := sgrColorArg_spec rest hq
    rcases copt with - | c
    · exact ⟨s.current_fg_color, s.current_bg_color, remaining,
        by simp [OverlayState.sgrStep, h38, h48, harg], hlen, hmem⟩
    · exact ⟨s.current_fg_color, c, remaining,
        by simp [OverlayState.sgrStep, h38, h48, harg], hlen, hmem⟩
  · obtain ⟨fg, bg, happ⟩ := sgrApplyCode_effect s v
    exact ⟨fg, bg, rest,
      by simp [OverlayState.sgrStep, h38, h48, happ], Nat.le_refl _, fun q h => h⟩

/-- The SGR loop with sufficient fuel on well-formed parameters succeeds
and only recolors the state. -/
theorem parse_sgr_go_colors (fuel : Nat) :
    ∀ (s : OverlayState) (ps : List (List Nat)), ps.length ≤ fuel →
      (∀ p ∈ ps, p ≠ []) →
      ∃ fg bg, OverlayState.parse_sgr_go fuel s ps =
        some { s with current_fg_color := fg, current_bg_color := bg } := by
  induction fuel with
  | zero =>
    intro s ps hlen _
    have : ps = [] := List.eq_nil_of_length_eq_zero (Nat.le_zero.mp hlen)
    subst this
    exact ⟨s.current_fg_color, s.current_bg_color, rfl⟩
  | succ n ih =>
    intro s ps hlen hps
    rcases ps with - | ⟨p, rest⟩
    · exact ⟨s.current_fg_color, s.current_bg_color, rfl⟩
    obtain ⟨fg, bg, remaining, hstep, hrlen, hrmem⟩ :=
      sgrStep_spec s p rest (hps p (List.mem_cons_self _ _))
        (fun q hq => hps q (List.mem_cons_of_mem _ hq))
    obtain ⟨fg2, bg2, hrec⟩ :=
      ih { s with current_fg_color := fg, current_bg_color := bg } remaining
        (by simp at hlen; omega)
        (fun q hq => hps q (List.mem_cons_of_mem _ (hrmem q hq)))
    refine ⟨fg2, bg2, ?_⟩
    simp only [OverlayState.parse_sgr_go, hstep]
    exact hrec

/-- `parse_sgr` on well-formed parameters succeeds and only recolors. -/
theorem parse_sgr_colors (s : OverlayState) (ps : List (List Nat))
    (hps : ∀ p ∈ ps, p ≠ []) :
    ∃ fg bg, OverlayState.parse_sgr s ps =
      some { s with current_fg_color := fg, current_bg_color := bg } :=
  parse_sgr_go_colors ps.length s ps (Nat.le_refl _) hps

/-! ## Interpreter operation lemmas -/

/-- On a well-formed grid, `scroll_up` succeeds and preserves the shape. -/
theorem scroll_up_spec (s : OverlayState) (hwf : gridWf s) :
    s.scroll_up = some { s with
      cells := s.cells.tail ++ [List.replicate s.width Cell.default] } ∧
    gridShape (s.cells.tail ++ [List.replicate s.width Cell.default])
      s.width s.height := by
  obtain ⟨hw, hh, -, -, hlen, hrows⟩ := hwf
  rcases hc : s.cells with - | ⟨c, rest⟩
  · rw [hc] at hlen; simp at hlen; omega
  refine ⟨?_, ?_, ?_⟩
  · simp [OverlayState.scroll_up, hc]
  · rw [hc] at hlen
    simp at hlen ⊢
    omega
  · intro row hmem
    rw [hc] at hrows
    simp at hmem
    rcases hmem with hmem | rfl
    · exact hrows _ (List.mem_cons_of_mem _ hmem)
    · simp

/-- On a well-formed grid, `write_char` succeeds, changes at most the
grid, and preserves the shape. -/
theorem write_char_spec (s : OverlayState) (c : Char) (hwf : gridWf s) :
    ∃ cells', s.write_char c = some { s with cells := cells' } ∧
      gridShape cells' s.width s.height := by
  obtain ⟨-, -, -, -, hshape⟩ := hwf
  by_cases hb : s.cursor_x < s.width ∧ s.cursor_y < s.height
  · obtain ⟨cells', hset, hshape'⟩ :=
      setCell_some ⟨c, s.current_fg_color, s.current_bg_color⟩ hshape hb.2 hb.1
    refine ⟨cells', ?_, hshape'⟩
    simp [OverlayState.write_char, hb, hset]
  · exact ⟨s.cells, by simp [OverlayState.write_char, hb], hshape⟩

/-- `clear_screen` preserves the grid shape. -/
theorem clear_screen_shape (s : OverlayState)
    (hshape : gridShape s.cells s.width s.height) :
    s.clear_screen = { s with
      cells := s.cells.map (fun row => row.map (fun _ => Cell.default)) } ∧
    gridShape (s.cells.map (fun row => row.map (fun _ => Cell.default)))
      s.width s.height := by
  obtain ⟨hlen, hrows⟩ := hshape
  refine ⟨rfl, by simp [hlen], ?_⟩
  intro row hmem
  simp at hmem
  obtain ⟨row0, hrow0, rfl⟩ := hmem
  simp [hrows _ hrow0]

/-- On a well-formed grid, `clear_to_end` succeeds, changes at most the
grid, and preserves the shape. -/
theorem clear_to_end_spec (s : OverlayState) (hwf : gridWf s) :
    ∃ cells', s.clear_to_end = some { s with cells := cells' } ∧
      gridShape cells' s.width s.height := by
  obtain ⟨-, -, -, -, hshape⟩ := hwf
  have hfirst : ∃ cells1, (List.range' s.cursor_x (s.width - s.cursor_x)).foldlM
      (fun cs x =>
        if s.cursor_y < s.height then OverlayState.setCell cs s.cursor_y x Cell.default
        else pure cs)
      s.cells = some cells1 ∧ gridShape cells1 s.width s.height := by
    by_cases hcy : s.cursor_y < s.height
    · simp only [if_pos hcy]
      exact foldlM_setCell_row hcy (List.range' s.cursor_x (s.width - s.cursor_x))
        s.cells hshape
        (fun x hx => by
          have := List.mem_range'_1.mp hx
          omega)
    · simp only [if_neg hcy]
      exact ⟨s.cells, foldlM_pure _ _, hshape⟩
  obtain ⟨cells1, h1, hs1⟩ := hfirst
  obtain ⟨cells', h2, hs2⟩ :=
    foldlM_setCell_rows
      (List.range' (wrap16 (s.cursor_y + 1)) (s.height - wrap16 (s.cursor_y + 1)))
      cells1 hs1
      (fun y hy => by
        have := List.mem_range'_1.mp hy
        omega)
  refine ⟨cells', ?_, hs2⟩
  simp only [Option.pure_def] at h1
  simp [OverlayState.clear_to_end, h1, h2]

/-- On a well-formed grid, `clear_line_to_end` succeeds, changes at most
the grid, and preserves the shape. -/
theorem clear_line_to_end_spec (s : OverlayState) (hwf : gridWf s) :
    ∃ cells', s.clear_line_to_end = some { s with cells := cells' } ∧
      gridShape cells' s.width s.height := by
  obtain ⟨-, -, -, -, hshape⟩ := hwf
  by_cases hcy : s.cursor_y < s.height
  · obtain ⟨cells', h1, hs1⟩ :=
      foldlM_setCell_row hcy (List.range' s.cursor_x (s.width - s.cursor_x))
        s.cells hshape
        (fun x hx => by
          have := List.mem_range'_1.mp hx
          omega)
    refine ⟨cells', ?_, hs1⟩
    simp [OverlayState.clear_line_to_end, hcy, h1]
  · exact ⟨s.cells, by simp [OverlayState.clear_line_to_end, hcy], hshape⟩

/-- On a well-formed grid, `clear_line` succeeds, changes at most the
grid, and preserves the shape. -/
theorem clear_line_spec (s : OverlayState) (hwf : gridWf s) :
    ∃ cells', s.clear_line = some { s with cells := cells' } ∧
      gridShape cells' s.width s.height := by
  obtain ⟨-, -, -, -, hshape⟩ := hwf
  by_cases hcy : s.cursor_y < s.height
  · obtain ⟨cells', h1, hs1⟩ :=
      foldlM_setCell_row hcy (List.range s.width) s.cells hshape
        (fun x hx => List.mem_range.mp hx)
    refine ⟨cells', ?_, hs1⟩
    simp [OverlayState.clear_line, hcy, h1]
  · exact ⟨s.cells, by simp [OverlayState.clear_line, hcy], hshape⟩

/-- On a well-formed grid, `advance_cursor` succeeds, preserves the
well-formed grid and every non-cursor field, lands the column in bounds,
and keeps a bounded row bounded. -/
theorem advance_cursor_spec (s : OverlayState) (hwf : gridWf s) :
    ∃ s', s.advance_cursor = some s' ∧ gridWf s' ∧
      s'.width = s.width ∧ s'.height = s.height ∧
      s'.saved_cursor_x = s.saved_cursor_x ∧ s'.saved_cursor_y = s.saved_cursor_y ∧
      s'.cursor_x < s.width ∧
      (s.cursor_y < s.height → s'.cursor_y < s.height) := by
  obtain ⟨hw, hh, h65w, h65h, hshape⟩ := hwf
  by_cases h1 : wrap16 (s.cursor_x + 1) ≥ s.width
  · by_cases h2 : wrap16 (s.cursor_y + 1) ≥ s.height
    · obtain ⟨hsc, hshape'⟩ :=
        scroll_up_spec { s with cursor_x := 0, cursor_y := wrap16 (s.cursor_y + 1) }
          ⟨hw, hh, h65w, h65h, hshape⟩
      refine ⟨{ s with cells := s.cells.tail ++ [List.replicate s.width Cell.default], cursor_x := 0, cursor_y := sub1w s.height }, ?_, ⟨hw, hh, h65w, h65h, hshape'⟩, rfl, rfl, rfl, rfl, hw, ?_⟩
      · simp [OverlayState.advance_cursor, h1, h2, hsc]
      · intro hcy
        simp [sub1w_eq s.height hh h65h]
        omega
    · exact ⟨{ s with cursor_x := 0, cursor_y := wrap16 (s.cursor_y + 1) }, by simp [OverlayState.advance_cursor, h1, h2], ⟨hw, hh, h65w, h65h, hshape⟩, rfl, rfl, rfl, rfl, hw, fun _ => not_le.mp h2⟩
  · exact ⟨{ s with cursor_x := wrap16 (s.cursor_x + 1) }, by simp [OverlayState.advance_cursor, h1], ⟨hw, hh, h65w, h65h, hshape⟩, rfl, rfl, rfl, rfl, not_le.mp h1, fun h => h⟩

/-- On a well-formed grid, `print` succeeds, preserves the well-formed
grid, the dimensions and the saved cursor, and keeps the cursor in
bounds. -/
theorem print_spec (s : OverlayState) (c : Char) (hwf : gridWf s) :
    ∃ s', s.print c = some s' ∧ gridWf s' ∧
      s'.width = s.width ∧ s'.height = s.height ∧
      s'.saved_cursor_x = s.saved_cursor_x ∧ s'.saved_cursor_y = s.saved_cursor_y ∧
      (cursorsInBounds s → cursorsInBounds s') := by
  obtain ⟨hw, hh, h65w, h65h, hshape⟩ := hwf
  obtain ⟨cells', hwc, hshape'⟩ := write_char_spec s c ⟨hw, hh, h65w, h65h, hshape⟩
  obtain ⟨s2, hadv, hwf2, hw2, hh2, hsx2, hsy2, hx2, hy2⟩ :=
    advance_cursor_spec { s with cells := cells' } ⟨hw, hh, h65w, h65h, hshape'⟩
  dsimp only at hw2 hh2 hsx2 hsy2 hx2 hy2
  refine ⟨s2, ?_, hwf2, hw2, hh2, hsx2, hsy2, ?_⟩
  · simp [OverlayState.print, hwc, hadv]
  · intro hcb
    obtain ⟨-, hcy, hsx, hsy⟩ := hcb
    exact ⟨hw2 ▸ hx2, hh2 ▸ hy2 hcy, by omega, by omega⟩

/-- On a well-formed grid, `execute` succeeds on every byte, preserves the
well-formed grid, the dimensions and the saved cursor, and keeps the
cursor in bounds. -/
theorem execute_spec (s : OverlayState) (b : Nat) (hwf : gridWf s) :
    ∃ s', s.execute b = some s' ∧ gridWf s' ∧
      s'.width = s.width ∧ s'.height = s.height ∧
      s'.saved_cursor_x = s.saved_cursor_x ∧ s'.saved_cursor_y = s.saved_cursor_y ∧
      (cursorsInBounds s → cursorsInBounds s') := by
  obtain ⟨hw, hh, h65w, h65h, hshape⟩ := hwf
  by_cases hb8 : b = 0x08
  · by_cases hx : s.cursor_x > 0
    · exact ⟨{ s with cursor_x := s.cursor_x - 1 }, by simp [OverlayState.execute, hb8, hx], ⟨hw, hh, h65w, h65h, hshape⟩, rfl, rfl, rfl, rfl, fun ⟨h1, h2, h3, h4⟩ => ⟨by dsimp only; omega, h2, h3, h4⟩⟩
    · exact ⟨s, by simp [OverlayState.execute, hb8, hx], ⟨hw, hh, h65w, h65h, hshape⟩, rfl, rfl, rfl, rfl, fun h => h⟩
  by_cases hb9 : b = 0x09
  · by_cases h1 : wrap16 ((s.cursor_x / 8 + 1) * 8) ≥ s.width
    · by_cases h2 : wrap16 (s.cursor_y + 1) ≥ s.height
      · obtain ⟨hsc, hshape'⟩ :=
          scroll_up_spec { s with cursor_x := 0, cursor_y := wrap16 (s.cursor_y + 1) }
            ⟨hw, hh, h65w, h65h, hshape⟩
        refine ⟨{ s with cells := s.cells.tail ++ [List.replicate s.width Cell.default], cursor_x := 0, cursor_y := sub1w s.height }, ?_, ⟨hw, hh, h65w, h65h, hshape'⟩, rfl, rfl, rfl, rfl, ?_⟩
        · simp [OverlayState.execute, hb8, hb9, h1, h2, hsc]
        · intro hcb
          obtain ⟨-, -, h3, h4⟩ := hcb
          refine ⟨hw, ?_, h3, h4⟩
          simp [sub1w_eq s.height hh h65h]
          omega
      · exact ⟨{ s with cursor_x := 0, cursor_y := wrap16 (s.cursor_y + 1) }, by simp [OverlayState.execute, hb8, hb9, h1, h2], ⟨hw, hh, h65w, h65h, hshape⟩, rfl, rfl, rfl, rfl, fun ⟨h3, h4, h5, h6⟩ => ⟨hw, not_le.mp h2, h5, h6⟩⟩
    · exact ⟨{ s with cursor_x := wrap16 ((s.cursor_x / 8 + 1) * 8) }, by simp [OverlayState.execute, hb8, hb9, h1], ⟨hw, hh, h65w, h65h, hshape⟩, rfl, rfl, rfl, rfl, fun ⟨h3, h4, h5, h6⟩ => ⟨not_le.mp h1, h4, h5, h6⟩⟩
  by_cases hbA : b = 0x0A
  · by_cases h2 : wrap16 (s.cursor_y + 1) ≥ s.height
    · obtain ⟨hsc, hshape'⟩ :=
        scroll_up_spec { s with cursor_y := wrap16 (s.cursor_y + 1) }
          ⟨hw, hh, h65w, h65h, hshape⟩
      refine ⟨{ s with cells := s.cells.tail ++ [List.replicate s.width Cell.default], cursor_y := sub1w s.height }, ?_, ⟨hw, hh, h65w, h65h, hshape'⟩, rfl, rfl, rfl, rfl, ?_⟩
      · simp [OverlayState.execute, hb8, hb9, hbA, h2, hsc]
      · intro hcb
        obtain ⟨h3, -, h5, h6⟩ := hcb
        refine ⟨h3, ?_, h5, h6⟩
        simp [sub1w_eq s.height hh h65h]
        omega
    · exact ⟨{ s with cursor_y := wrap16 (s.cursor_y + 1) }, by simp [OverlayState.execute, hb8, hb9, hbA, h2], ⟨hw, hh, h65w, h65h, hshape⟩, rfl, rfl, rfl, rfl, fun ⟨h3, h4, h5, h6⟩ => ⟨h3, not_le.mp h2, h5, h6⟩⟩
  by_cases hbD : b = 0x0D
  · exact ⟨{ s with cursor_x := 0 }, by simp [OverlayState.execute, hb8, hb9, hbA, hbD], ⟨hw, hh, h65w, h65h, hshape⟩, rfl, rfl, rfl, rfl, fun ⟨h3, h4, h5, h6⟩ => ⟨hw, h4, h5, h6⟩⟩
  by_cases hbC : b = 0x0C
  · obtain ⟨-, hshape'⟩ := clear_screen_shape s hshape
    exact ⟨{ s with cells := s.cells.map (fun row => row.map (fun _ => Cell.default)), cursor_x := 0, cursor_y := 0 }, by simp [OverlayState.execute, OverlayState.clear_screen, hb8, hb9, hbA, hbD, hbC], ⟨hw, hh, h65w, h65h, hshape'⟩, rfl, rfl, rfl, rfl, fun ⟨h3, h4, h5, h6⟩ => ⟨hw, hh, h5, h6⟩⟩
  · exact ⟨s, by simp [OverlayState.execute, hb8, hb9, hbA, hbD, hbC], ⟨hw, hh, h65w, h65h, hshape⟩, rfl, rfl, rfl, rfl, fun h => h⟩

/-- On a well-formed grid with well-formed parameters, `csi_dispatch`
succeeds for every action letter, preserves the well-formed grid and the
dimensions, and keeps both cursors in bounds. -/
theorem csi_dispatch_spec (s : OverlayState) (ps : List (List Nat)) (action : Char)
    (hwf : gridWf s) (hps : ∀ p ∈ ps, p ≠ []) :
    ∃ s', s.csi_dispatch ps action = some s' ∧ gridWf s' ∧
      s'.width = s.width ∧ s'.height = s.height ∧
      (cursorsInBounds s → cursorsInBounds s') := by
  obtain ⟨hw, hh, h65w, h65h, hshape⟩ := hwf
  have hW : gridWf s := ⟨hw, hh, h65w, h65h, hshape⟩
  unfold OverlayState.csi_dispatch
  split
  · exact ⟨_, rfl, hW, rfl, rfl, fun ⟨h1, h2, h3, h4⟩ => ⟨by dsimp only; omega, by dsimp only; omega, h3, h4⟩⟩
  · exact ⟨_, rfl, hW, rfl, rfl, fun ⟨h1, h2, h3, h4⟩ => ⟨by dsimp only; omega, by dsimp only; omega, h3, h4⟩⟩
  · exact ⟨_, rfl, hW, rfl, rfl, fun ⟨h1, h2, h3, h4⟩ => ⟨h1, by dsimp only; omega, h3, h4⟩⟩
  · refine ⟨_, rfl, hW, rfl, rfl, fun ⟨h1, h2, h3, h4⟩ => ⟨h1, ?_, h3, h4⟩⟩
    have hs := sub1w_eq s.height hh h65h
    dsimp only
    omega
  · refine ⟨_, rfl, hW, rfl, rfl, fun ⟨h1, h2, h3, h4⟩ => ⟨?_, h2, h3, h4⟩⟩
    have hs := sub1w_eq s.width hw h65w
    dsimp only
    omega
  · exact ⟨_, rfl, hW, rfl, rfl, fun ⟨h1, h2, h3, h4⟩ => ⟨by dsimp only; omega, h2, h3, h4⟩⟩
  · -- CSI J
    by_cases hm0 : firstParam ps 0 = 0
    · obtain ⟨cells', hce, hshape'⟩ := clear_to_end_spec s hW
      exact ⟨{ s with cells := cells' }, by simp [hm0, hce], ⟨hw, hh, h65w, h65h, hshape'⟩, rfl, rfl, fun h => h⟩
    by_cases hm1 : firstParam ps 0 = 1
    · exact ⟨s, by simp [hm0, hm1], hW, rfl, rfl, fun h => h⟩
    by_cases hm23 : firstParam ps 0 = 2 ∨ firstParam ps 0 = 3
    · obtain ⟨-, hshape'⟩ := clear_screen_shape s hshape
      exact ⟨{ s with cells := s.cells.map (fun row => row.map (fun _ => Cell.default)), cursor_x := 0, cursor_y := 0 },
        by simp [hm0, hm1, hm23, OverlayState.clear_screen],
        ⟨hw, hh, h65w, h65h, hshape'⟩, rfl, rfl,
        fun ⟨h1, h2, h3, h4⟩ => ⟨hw, hh, h3, h4⟩⟩
    · exact ⟨s, by simp [hm0, hm1, hm23], hW, rfl, rfl, fun h => h⟩
  · -- CSI K
    by_cases hm0 : firstParam ps 0 = 0
    · obtain ⟨cells', hcl, hshape'⟩ := clear_line_to_end_spec s hW
      exact ⟨{ s with cells := cells' }, by simp [hm0, hcl], ⟨hw, hh, h65w, h65h, hshape'⟩, rfl, rfl, fun h => h⟩
    by_cases hm1 : firstParam ps 0 = 1
    · exact ⟨s, by simp [hm0, hm1], hW, rfl, rfl, fun h => h⟩
    by_cases hm2 : firstParam ps 0 = 2
    · obtain ⟨cells', hcl, hshape'⟩ := clear_line_spec s hW
      exact ⟨{ s with cells := cells' }, by simp [hm0, hm1, hm2, hcl], ⟨hw, hh, h65w, h65h, hshape'⟩, rfl, rfl,
        fun h => h⟩
    · exact ⟨s, by simp [hm0, hm1, hm2], hW, rfl, rfl, fun h => h⟩
  · -- CSI m
    obtain ⟨fg, bg, hsgr⟩ := parse_sgr_colors s ps hps
    exact ⟨_, hsgr, hW, rfl, rfl, fun h => h⟩
  · -- CSI h
    rcases ps with - | ⟨p, rest⟩
    · exact ⟨s, rfl, hW, rfl, rfl, fun h => h⟩
    rcases p with - | ⟨v, vt⟩
    · exact ⟨s, rfl, hW, rfl, rfl, fun h => h⟩
    by_cases h25 : v = 25
    · exact ⟨{ s with cursor_visible := true }, by simp [h25], hW, rfl, rfl, fun h => h⟩
    · exact ⟨s, by simp [h25], hW, rfl, rfl, fun h => h⟩
  · -- CSI l
    rcases ps with - | ⟨p, rest⟩
    · exact ⟨s, rfl, hW, rfl, rfl, fun h => h⟩
    rcases p with - | ⟨v, vt⟩
    · exact ⟨s, rfl, hW, rfl, rfl, fun h => h⟩
    by_cases h25 : v = 25
    · exact ⟨{ s with cursor_visible := false }, by simp [h25], hW, rfl, rfl, fun h => h⟩
    · exact ⟨s, by simp [h25], hW, rfl, rfl, fun h => h⟩
  · exact ⟨_, rfl, hW, rfl, rfl, fun ⟨h1, h2, h3, h4⟩ => ⟨h1, h2, h1, h2⟩⟩
  · exact ⟨_, rfl, hW, rfl, rfl, fun ⟨h1, h2, h3, h4⟩ => ⟨h3, h4, h3, h4⟩⟩
  · exact ⟨s, rfl, hW, rfl, rfl, fun h => h⟩

/-- On a well-formed grid, every well-formed parsed event is applied
without error, preserves the well-formed grid and the dimensions, and
keeps both cursors in bounds. -/
theorem applyEvent_spec (s : OverlayState) (e : VtEvent) (hwf : gridWf s)
    (hev : eventWf e) :
    ∃ s', applyEvent s e = some s' ∧ gridWf s' ∧
      s'.width = s.width ∧ s'.height = s.height ∧
      (cursorsInBounds s → cursorsInBounds s') := by
  rcases e with c | b | ⟨ps, a⟩
  · obtain ⟨s', h1, h2, h3, h4, -, -, h5⟩ := print_spec s c hwf
    exact ⟨s', h1, h2, h3, h4, h5⟩
  · obtain ⟨s', h1, h2, h3, h4, -, -, h5⟩ := execute_spec s b hwf
    exact ⟨s', h1, h2, h3, h4, h5⟩
  · exact csi_dispatch_spec s ps a hwf hev

/-- On a well-formed grid, every sequence of well-formed parsed events is
applied without error, preserves the well-formed grid and the dimensions,
and keeps both cursors in bounds. -/
theorem applyEvents_spec (es : List VtEvent) :
    ∀ s : OverlayState, gridWf s → (∀ e ∈ es, eventWf e) →
      ∃ s', applyEvents s es = some s' ∧ gridWf s' ∧
        s'.width = s.width ∧ s'.height = s.height ∧
        (cursorsInBounds s → cursorsInBounds s') := by
  induction es with
  | nil => exact fun s hwf _ => ⟨s, rfl, hwf, rfl, rfl, fun h => h⟩
  | cons e t ih =>
    intro s hwf hev
    obtain ⟨s1, h1, hwf1, hw1, hh1, hb1⟩ :=
      applyEvent_spec s e hwf (hev e (List.mem_cons_self _ _))
    obtain ⟨s2, h2, hwf2, hw2, hh2, hb2⟩ :=
      ih s1 hwf1 (fun e' he' => hev e' (List.mem_cons_of_mem _ he'))
    refine ⟨s2, ?_, hwf2, by omega, by omega, fun h => hb2 (hb1 h)⟩
    simp only [applyEvents, List.foldlM_cons, h1]
    simpa [applyEvents] using h2

/-! ### Tokenizer well-formedness -/

/-- Tokenizer-state well-formedness: the accumulated CSI parameter slices
are non-empty. -/
def tokStateWf (st : TokState) : Prop :=
  match st with
  | .csi ps _ => ∀ p ∈ ps, p ≠ []
  | _ => True

/-- One tokenizer step preserves state well-formedness and emits only
well-formed events. -/
theorem tokStep_wf (st : TokState) (b : Nat) (hst : tokStateWf st) :
    tokStateWf (tokStep st b).1 ∧ ∀ e ∈ (tokStep st b).2, eventWf e := by
  rcases st with - | - | ⟨ps, cur⟩
  · by_cases h1 : b = 0x1B
    · simp [tokStep, h1, tokStateWf]
    by_cases h2 : b < 0x20
    · simp [tokStep, h1, h2, tokStateWf, eventWf]
    · simp [tokStep, h1, h2, tokStateWf, eventWf]
  · by_cases h1 : b = 0x5B
    · simp [tokStep, h1, tokStateWf]
    by_cases h2 : b = 0x1B
    · simp [tokStep, h1, h2, tokStateWf]
    · simp [tokStep, h1, h2, tokStateWf]
  · simp only [tokStateWf] at hst
    by_cases h1 : 0x30 ≤ b ∧ b ≤ 0x39
    · refine ⟨?_, by simp [tokStep, h1]⟩
      simp only [tokStep, if_pos h1, tokStateWf]
      exact hst
    by_cases h2 : b = 0x3B
    · refine ⟨?_, by simp [tokStep, h1, h2]⟩
      simp only [tokStep, if_neg h1, if_pos h2, tokStateWf]
      intro p hp
      rcases List.mem_append.mp hp with hp' | hp'
      · exact hst p hp'
      · simp at hp'
        simp [hp']
    by_cases h3 : 0x40 ≤ b ∧ b ≤ 0x7E
    · refine ⟨by simp [tokStep, h1, h2, h3, tokStateWf], ?_⟩
      intro e he
      simp only [tokStep, if_neg h1, if_neg h2, if_pos h3] at he
      simp at he
      subst he
      by_cases hemp : ps = [] ∧ cur = none
      · simp [eventWf, hemp]
      · simp only [eventWf, if_neg hemp]
        intro p hp
        rcases List.mem_append.mp hp with hp' | hp'
        · exact hst p hp'
        · simp at hp'
          simp [hp']
    by_cases h4 : b < 0x20
    · refine ⟨?_, by simp [tokStep, h1, h2, h3, h4, eventWf]⟩
      simp only [tokStep, if_neg h1, if_neg h2, if_neg h3, if_pos h4, tokStateWf]
      exact hst
    · refine ⟨?_, by simp [tokStep, h1, h2, h3, h4]⟩
      simp only [tokStep, if_neg h1, if_neg h2, if_neg h3, if_neg h4, tokStateWf]
      exact hst

/-- A tokenizer run from a well-formed state emits only well-formed
events. -/
theorem tokRun_wf (bytes : List Nat) :
    ∀ st : TokState, tokStateWf st → ∀ e ∈ (tokRun st bytes).2, eventWf e := by
  induction bytes with
  | nil => intro st _ e he; simp [tokRun] at he
  | cons b t ih =>
    intro st hst e he
    obtain ⟨hst', hev'⟩ := tokStep_wf st b hst
    simp only [tokRun] at he
    rcases List.mem_append.mp (by simpa using he) with he' | he'
    · exact hev' e he'
    · exact ih (tokStep st b).1 hst' e he'

/-- Every event `tokenize` emits is well-formed. -/
theorem tokenize_wf (bytes : List Nat) : ∀ e ∈ tokenize bytes, eventWf e :=
  tokRun_wf bytes .ground trivial

/-! ## Claims -/

/-- C8: the key-event encoder maps Ctrl+C to the single byte 0x03 and in
general Ctrl plus a letter to uppercase-ASCII AND 0x1F, with Space and `@`
giving NUL and `?` giving DEL; Enter to 0x0D; Up arrow to ESC `[` `A`;
Shift+Tab to ESC `[` `Z`; and every unmapped key to the empty sequence. -/
theorem C8_key_event_encoder :
    (∀ m : KeyModifiers, m.control = true →
      (∀ c : Char, 65 ≤ c.toNat ∧ c.toNat ≤ 90 →
        key_event_to_bytes (.Char c) m = [c.toNat &&& 0x1f]) ∧
      (∀ c : Char, 97 ≤ c.toNat ∧ c.toNat ≤ 122 →
        key_event_to_bytes (.Char c) m = [(c.toNat - 32) &&& 0x1f]) ∧
      key_event_to_bytes (.Char 'c') m = [0x03] ∧
      key_event_to_bytes (.Char ' ') m = [0x00] ∧
      key_event_to_bytes (.Char '@') m = [0x00] ∧
      key_event_to_bytes (.Char '?') m = [0x7f]) ∧
    (∀ m : KeyModifiers, key_event_to_bytes .Enter m = [0x0d]) ∧
    (∀ m : KeyModifiers, key_event_to_bytes .Up m = [0x1b, 0x5b, 0x41]) ∧
    (∀ m : KeyModifiers, m.shift = true →
      key_event_to_bytes .Tab m = [0x1b, 0x5b, 0x5a]) ∧
    (∀ m : KeyModifiers, key_event_to_bytes .Other m = []) ∧
    (∀ (m : KeyModifiers) (n : Nat), n = 0 ∨ 13 ≤ n →
      key_event_to_bytes (.F n) m = []) := by
  refine ⟨?_, fun m => rfl, fun m => rfl, ?_, fun m => rfl, ?_⟩
  · intro m hm
    refine ⟨?_, ?_, ?_, ?_, ?_, ?_⟩
    · intro c hc
      have h1 : ¬(c = ' ' ∨ c = '@') := by
        rintro (rfl | rfl) <;> exact absurd hc (by decide)
      have h2 : ¬c = '?' := by rintro rfl; exact absurd hc (by decide)
      have h3 : ¬(97 ≤ c.toNat ∧ c.toNat ≤ 122) := by omega
      have h4 : c.toNat % 256 = c.toNat := Nat.mod_eq_of_lt (by omega)
      simp [key_event_to_bytes, hm, h1, h2, asciiUppercase, h3, h4]
    · intro c hc
      have h1 : ¬(c = ' ' ∨ c = '@') := by
        rintro (rfl | rfl) <;> exact absurd hc (by decide)
      have h2 : ¬c = '?' := by rintro rfl; exact absurd hc (by decide)
      have h3 : 97 ≤ c.toNat ∧ c.toNat ≤ 122 := hc
      have h4 : (c.toNat - 32) % 256 = c.toNat - 32 := Nat.mod_eq_of_lt (by omega)
      simp [key_event_to_bytes, hm, h1, h2, asciiUppercase, h3, h4]
    · simp [key_event_to_bytes, hm, asciiUppercase]
      decide
    · simp [key_event_to_bytes, hm]
    · simp [key_event_to_bytes, hm]
    · simp [key_event_to_bytes, hm]
  · intro m hm
    simp [key_event_to_bytes, hm]
  · rintro m n (rfl | hn)
    · rfl
    · match n, hn with
      | n + 13, _ => rfl

/-- Witness for C8 at concrete keys and modifier sets. -/
theorem C8_key_event_encoder_witness :
    key_event_to_bytes (.Char 'c') ⟨true, false, false⟩ = [0x03] ∧
    key_event_to_bytes (.Char 'a') ⟨true, false, false⟩ = [0x01] ∧
    key_event_to_bytes (.Char 'C') ⟨true, false, false⟩ = [0x03] ∧
    key_event_to_bytes .Enter ⟨false, false, false⟩ = [0x0d] ∧
    key_event_to_bytes .Up ⟨false, false, false⟩ = [0x1b, 0x5b, 0x41] ∧
    key_event_to_bytes .Tab ⟨false, false, true⟩ = [0x1b, 0x5b, 0x5a] ∧
    key_event_to_bytes .Other ⟨false, false, false⟩ = [] ∧
    key_event_to_bytes (.F 13) ⟨false, false, false⟩ = [] := by
  obtain ⟨hc, he, hu, ht, ho, hf⟩ := C8_key_event_encoder
  obtain ⟨hupper, hlower, hcc, -, -, -⟩ := hc ⟨true, false, false⟩ rfl
  refine ⟨hcc, ?_, ?_, he _, hu _, ht _ rfl, ho _, hf _ 13 (Or.inr (by norm_num))⟩
  · have := hlower 'a' (by decide)
    simpa using this
  · have := hupper 'C' (by decide)
    simpa using this

/-- C9: `read_output` yields exactly one of three outcomes — the next
queued chunk when one is present, an empty `Ok` result when the open queue
is empty, and the distinct broken-pipe error once the queue is closed. -/
theorem C9_read_output_tri_state (ch : OutputChannel) :
    (∀ chunk rest, ch.queue = chunk :: rest →
      read_output ch = (.ok chunk, { ch with queue := rest })) ∧
    (ch.queue = [] → ch.closed = false → read_output ch = (.ok [], ch)) ∧
    (ch.queue = [] → ch.closed = true → read_output ch = (.brokenPipe, ch)) := by
  refine ⟨?_, ?_, ?_⟩
  · intro chunk rest h
    simp [read_output, h]
  · intro h hc
    simp [read_output, h, hc]
  · intro h hc
    simp [read_output, h, hc]

/-- Witness for C9 on concrete channels in all three situations. -/
theorem C9_read_output_tri_state_witness :
    read_output ⟨[[104, 105]], false⟩ = (.ok [104, 105], ⟨[], false⟩) ∧
    read_output ⟨[], false⟩ = (.ok [], ⟨[], false⟩) ∧
    read_output ⟨[], true⟩ = (.brokenPipe, ⟨[], true⟩) :=
  ⟨(C9_read_output_tri_state ⟨[[104, 105]], false⟩).1 [104, 105] [] rfl,
   (C9_read_output_tri_state ⟨[], false⟩).2.1 rfl rfl,
   (C9_read_output_tri_state ⟨[], true⟩).2.2 rfl rfl⟩

/-- C10: `resize` blanks the grid and homes the cursor but leaves the
saved-cursor slot, the pending colors, and the cursor-visible flag at
their pre-resize values. -/
theorem C10_resize_frame_effect (s : OverlayState) (w h : Nat) :
    (s.resize w h).cells = List.replicate h (List.replicate w Cell.default) ∧
    (s.resize w h).cursor_x = 0 ∧
    (s.resize w h).cursor_y = 0 ∧
    (s.resize w h).width = w ∧
    (s.resize w h).height = h ∧
    (s.resize w h).saved_cursor_x = s.saved_cursor_x ∧
    (s.resize w h).saved_cursor_y = s.saved_cursor_y ∧
    (s.resize w h).current_fg_color = s.current_fg_color ∧
    (s.resize w h).current_bg_color = s.current_bg_color ∧
    (s.resize w h).cursor_visible = s.cursor_visible := by
  simp [OverlayState.resize]

/-- C7: a CSI `H`/`f` command converts its 1-indexed row/col parameters
(default 1 when absent) to 0-indexed and clamps them to the grid bounds;
in particular a target row beyond the grid lands on the last valid row and
the dispatch never fails. -/
theorem C7_cursor_position_clamped (s : OverlayState) (ps : List (List Nat))
    (action : Char) (hact : action = 'H' ∨ action = 'f') :
    s.csi_dispatch ps action =
      some { s with
        cursor_y := min (firstParam ps 1 - 1) (s.height - 1)
        cursor_x := min (secondParam ps 1 - 1) (s.width - 1) } ∧
    (0 < s.width → 0 < s.height →
      min (firstParam ps 1 - 1) (s.height - 1) < s.height ∧
      min (secondParam ps 1 - 1) (s.width - 1) < s.width) := by
  obtain rfl | rfl := hact <;>
    exact ⟨rfl, fun hw hh => ⟨by omega, by omega⟩⟩

/-- Witness for C7: after resizing a fresh 80×24 interpreter to 120×40, a
cursor-position command targeting row 200 is clamped to the last valid
row 39. -/
theorem C7_cursor_position_clamped_witness :
    ((OverlayState.new 80 24).resize 120 40).csi_dispatch [[200], [1]] 'H' =
      some { (OverlayState.new 80 24).resize 120 40 with
        cursor_y := 39, cursor_x := 0 } ∧
    (39 : Nat) < 40 := by
  have h :=
    (C7_cursor_position_clamped ((OverlayState.new 80 24).resize 120 40)
      [[200], [1]] 'H' (Or.inl rfl)).1
  refine ⟨?_, by norm_num⟩
  rw [h]
  decide

/-- When `previous` already equals `current`, every cell of the `flush`
scan is skipped. -/
theorem flushCell_of_eq (r : TerminalRenderer) (h : r.last_buffer = r.buffer)
    (acc : TerminalRenderer.FlushAcc) (p : Nat × Nat) :
    TerminalRenderer.flushCell r acc p = acc := by
  obtain ⟨x, y⟩ := p
  unfold TerminalRenderer.flushCell
  rw [h]
  rcases hc : r.buffer[y * r.width + x]? with - | cell <;>
    simp [List.get?_eq_getElem?, hc]

/-- A fold whose step never changes the accumulator is the identity. -/
theorem foldl_eq_init {α β : Type} (f : α → β → α) (l : List β)
    (h : ∀ a b, f a b = a) (a : α) : l.foldl f a = a := by
  induction l generalizing a with
  | nil => rfl
  | cons p t ih => rw [List.foldl_cons, h a p]; exact ih a

/-- C1: `flush` succeeds on equal-length buffers, leaves
`previous == current`, and a second `flush` with no intervening writes
emits zero draw operations and changes nothing. -/
theorem C1_flush_idempotent (r : TerminalRenderer)
    (h : r.last_buffer.length = r.buffer.length) :
    (∃ ops, r.flush = some (ops, { r with last_buffer := r.buffer })) ∧
      ({ r with last_buffer := r.buffer } : TerminalRenderer).flush =
        some ([], { r with last_buffer := r.buffer }) := by
  refine ⟨?_, ?_⟩
  · unfold TerminalRenderer.flush
    apply Exists.intro
    rw [if_pos h]
  · have hfold :=
      foldl_eq_init
        (TerminalRenderer.flushCell { r with last_buffer := r.buffer })
        (TerminalRenderer.scanPoints { r with last_buffer := r.buffer })
        (fun a b =>
          flushCell_of_eq { r with last_buffer := r.buffer } rfl a b)
    unfold TerminalRenderer.flush
    rw [hfold]
    simp

/-- Witness for C1: a 2×1 screen with one `set` call flushes to
`previous == current` and re-flushes with zero draw operations. -/
theorem C1_flush_idempotent_witness :
    (∃ ops, ((TerminalRenderer.new 2 1).render_char 0 0 'A' .Red).flush =
      some (ops, { (TerminalRenderer.new 2 1).render_char 0 0 'A' .Red with
        last_buffer := ((TerminalRenderer.new 2 1).render_char 0 0 'A' .Red).buffer })) ∧
      ({ (TerminalRenderer.new 2 1).render_char 0 0 'A' .Red with
        last_buffer := ((TerminalRenderer.new 2 1).render_char 0 0 'A' .Red).buffer } :
          TerminalRenderer).flush =
        some ([], { (TerminalRenderer.new 2 1).render_char 0 0 'A' .Red with
          last_buffer := ((TerminalRenderer.new 2 1).render_char 0 0 'A' .Red).buffer }) :=
  C1_flush_idempotent ((TerminalRenderer.new 2 1).render_char 0 0 'A' .Red) (by decide)

/-- C6: the screen-buffer writes `set` (`render_char`), `set_with_bg`, and
the interpreter's internal cell write modify only the addressed in-bounds
cell, and out-of-bounds coordinates are silent no-ops that never fail and
leave the grid unchanged. -/
theorem C6_write_bounds_safety :
    (∀ (r : TerminalRenderer) (x y : Nat) (ch : Char) (color : Color),
      (¬(x < r.width ∧ y < r.height) → r.render_char x y ch color = r) ∧
      (∀ i, i ≠ y * r.width + x →
        (r.render_char x y ch color).buffer[i]? = r.buffer[i]?) ∧
      (r.render_char x y ch color).last_buffer = r.last_buffer ∧
      (r.render_char x y ch color).width = r.width ∧
      (r.render_char x y ch color).height = r.height ∧
      (x < r.width → y < r.height → y * r.width + x < r.buffer.length →
        (r.render_char x y ch color).buffer[y * r.width + x]? = some ⟨ch, color⟩)) ∧
    (∀ (b : BgBuffer) (x y : Nat) (ch : Char) (fg bg : Color),
      (¬(x < b.width ∧ y < b.height) → set_with_bg b x y ch fg bg = b) ∧
      (∀ i, i ≠ y * b.width + x →
        (set_with_bg b x y ch fg bg).buffer[i]? = b.buffer[i]?) ∧
      (x < b.width → y < b.height → y * b.width + x < b.buffer.length →
        (set_with_bg b x y ch fg bg).buffer[y * b.width + x]? = some ⟨ch, fg, bg⟩)) ∧
    (∀ (s : OverlayState) (c : Char),
      (¬(s.cursor_x < s.width ∧ s.cursor_y < s.height) → s.write_char c = some s) ∧
      (gridWf s → s.cursor_x < s.width → s.cursor_y < s.height →
        s.write_char c =
          some { s with cells := (s.cells.set s.cursor_y
            ((s.cells.getD s.cursor_y []).set s.cursor_x
              ⟨c, s.current_fg_color, s.current_bg_color⟩)) } ∧
        (∀ yy, yy ≠ s.cursor_y →
          (s.cells.set s.cursor_y
            ((s.cells.getD s.cursor_y []).set s.cursor_x
              ⟨c, s.current_fg_color, s.current_bg_color⟩))[yy]? = s.cells[yy]?) ∧
        (∀ xx, xx ≠ s.cursor_x →
          ((s.cells.getD s.cursor_y []).set s.cursor_x
            ⟨c, s.current_fg_color, s.current_bg_color⟩)[xx]? =
            (s.cells.getD s.cursor_y [])[xx]?))) := by
  refine ⟨?_, ?_, ?_⟩
  · intro r x y ch color
    refine ⟨?_, ?_, ?_, ?_, ?_, ?_⟩
    · intro hob
      simp [TerminalRenderer.render_char, hob]
    · intro i hi
      by_cases h1 : x < r.width ∧ y < r.height
      · by_cases h2 : y * r.width + x < r.buffer.length
        · simp [TerminalRenderer.render_char, h1, h2,
            List.getElem?_set_ne (Ne.symm hi)]
        · simp [TerminalRenderer.render_char, h1, h2]
      · simp [TerminalRenderer.render_char, h1]
    · by_cases h1 : x < r.width ∧ y < r.height
      · by_cases h2 : y * r.width + x < r.buffer.length
        · simp [TerminalRenderer.render_char, h1, h2]
        · simp [TerminalRenderer.render_char, h1, h2]
      · simp [TerminalRenderer.render_char, h1]
    · by_cases h1 : x < r.width ∧ y < r.height
      · by_cases h2 : y * r.width + x < r.buffer.length
        · simp [TerminalRenderer.render_char, h1, h2]
        · simp [TerminalRenderer.render_char, h1, h2]
      · simp [TerminalRenderer.render_char, h1]
    · by_cases h1 : x < r.width ∧ y < r.height
      · by_cases h2 : y * r.width + x < r.buffer.length
        · simp [TerminalRenderer.render_char, h1, h2]
        · simp [TerminalRenderer.render_char, h1, h2]
      · simp [TerminalRenderer.render_char, h1]
    · intro hx hy h2
      simp [TerminalRenderer.render_char, And.intro hx hy, h2,
        List.getElem?_set_eq_of_lt _ h2]
  · intro b x y ch fg bg
    refine ⟨?_, ?_, ?_⟩
    · intro hob
      simp [set_with_bg, hob]
    · intro i hi
      by_cases h1 : x < b.width ∧ y < b.height
      · simp [set_with_bg, h1, List.getElem?_set_ne (Ne.symm hi)]
      · simp [set_with_bg, h1]
    · intro hx hy h2
      simp [set_with_bg, And.intro hx hy, List.getElem?_set_eq_of_lt _ h2]
  · intro s c
    refine ⟨?_, ?_⟩
    · intro hob
      simp [OverlayState.write_char, hob]
    · intro hwf hx hy
      obtain ⟨-, -, -, -, hshape⟩ := hwf
      have hset := setCell_eq ⟨c, s.current_fg_color, s.current_bg_color⟩
        hshape hy hx
      refine ⟨?_, ?_, ?_⟩
      · simp [OverlayState.write_char, And.intro hx hy, hset]
      · intro yy hyy
        exact List.getElem?_set_ne (Ne.symm hyy)
      · intro xx hxx
        exact List.getElem?_set_ne (Ne.symm hxx)

/-- Witness for C6: a 3×2 screen buffer, a 3×2 background buffer and a 3×2
interpreter, written in and out of bounds. -/
theorem C6_write_bounds_safety_witness :
    ((TerminalRenderer.new 3 2).render_char 7 9 'Z' .Red = TerminalRenderer.new 3 2) ∧
    ((TerminalRenderer.new 3 2).render_char 1 1 'Z' .Red).buffer[0]? =
      (TerminalRenderer.new 3 2).buffer[0]? ∧
    ((TerminalRenderer.new 3 2).render_char 1 1 'Z' .Red).buffer[4]? =
      some ⟨'Z', .Red⟩ ∧
    set_with_bg ⟨3, 2, List.replicate 6 ⟨' ', .Reset, .Reset⟩⟩ 9 9 'Q' .Red .Blue =
      ⟨3, 2, List.replicate 6 ⟨' ', .Reset, .Reset⟩⟩ ∧
    (set_with_bg ⟨3, 2, List.replicate 6 ⟨' ', .Reset, .Reset⟩⟩ 1 0 'Q' .Red .Blue).buffer[1]? =
      some ⟨'Q', .Red, .Blue⟩ ∧
    ({ OverlayState.new 3 2 with cursor_x := 5, cursor_y := 0 } : OverlayState).write_char 'W' =
      some { OverlayState.new 3 2 with cursor_x := 5, cursor_y := 0 } := by
  have h1 := (C6_write_bounds_safety.1 (TerminalRenderer.new 3 2) 7 9 'Z' .Red).1
    (by decide)
  have h2 := (C6_write_bounds_safety.1 (TerminalRenderer.new 3 2) 1 1 'Z' .Red).2.1
    0 (by decide)
  have h3 := (C6_write_bounds_safety.1 (TerminalRenderer.new 3 2) 1 1 'Z' .Red).2.2.2.2.2
    (by decide) (by decide) (by decide)
  have h4 := (C6_write_bounds_safety.2.1
    ⟨3, 2, List.replicate 6 ⟨' ', .Reset, .Reset⟩⟩ 9 9 'Q' .Red .Blue).1 (by decide)
  have h5 := (C6_write_bounds_safety.2.1
    ⟨3, 2, List.replicate 6 ⟨' ', .Reset, .Reset⟩⟩ 1 0 'Q' .Red .Blue).2.2
    (by decide) (by decide) (by decide)
  have h6 := (C6_write_bounds_safety.2.2
    { OverlayState.new 3 2 with cursor_x := 5, cursor_y := 0 } 'W').1 (by decide)
  exact ⟨h1, h2, by simpa using h3, h4, by simpa using h5, h6⟩

/-- C2: on a well-formed grid, `process_output` returns normally for every
byte sequence — malformed parameter sequences included — and any
unrecognized CSI final letter leaves the state unchanged. -/
theorem C2_interpreter_totality (s : OverlayState) (hwf : gridWf s)
    (bytes : List Nat) :
    (∃ s', process_output s bytes = some s' ∧ gridWf s') ∧
    (∀ (ps : List (List Nat)) (a : Char),
      a ∉ (['H', 'f', 'A', 'B', 'C', 'D', 'J', 'K', 'm', 'h', 'l', 's', 'u'] : List Char) →
      s.csi_dispatch ps a = some s) := by
  constructor
  · obtain ⟨s', h1, h2, -, -, -⟩ :=
      applyEvents_spec (tokenize bytes) s hwf (tokenize_wf bytes)
    exact ⟨s', h1, h2⟩
  · intro ps a ha
    unfold OverlayState.csi_dispatch
    split <;> simp_all

/-- Witness for C2: a fresh 5×3 interpreter fed an escape soup with a
malformed parameter list, an unknown final letter, and stray control
bytes. -/
theorem C2_interpreter_totality_witness :
    (∃ s', process_output (OverlayState.new 5 3)
        (strBytes "\x1b[12;;34X\x1b[?25h\x07ok\x1b[" ++ [0xFF, 0x00]) = some s' ∧
      gridWf s') ∧
    (OverlayState.new 5 3).csi_dispatch [[99], []] 'Q' = some (OverlayState.new 5 3) :=
  ⟨(C2_interpreter_totality (OverlayState.new 5 3) (by decide)
      (strBytes "\x1b[12;;34X\x1b[?25h\x07ok\x1b[" ++ [0xFF, 0x00])).1,
   (C2_interpreter_totality (OverlayState.new 5 3) (by decide) []).2
      [[99], []] 'Q' (by decide)⟩

/-- C3: Carriage Return resets the column to 0; Line Feed advances the
row; a Line Feed on the last row scrolls — row 0 is discarded, a blank
row is appended, the other rows keep their order, the cursor stays on the
last row, and the grid dimensions never change. -/
theorem C3_line_discipline (s : OverlayState) (hwf : gridWf s) :
    s.execute 0x0D = some { s with cursor_x := 0 } ∧
    (s.cursor_y + 1 < s.height →
      s.execute 0x0A = some { s with cursor_y := s.cursor_y + 1 }) ∧
    (s.cursor_y = s.height - 1 →
      s.execute 0x0A = some { s with
        cells := (s.cells.tail ++ [List.replicate s.width Cell.default]),
        cursor_y := s.height - 1 } ∧
      (s.cells.tail ++ [List.replicate s.width Cell.default]).length = s.height ∧
      (∀ row ∈ s.cells.tail ++ [List.replicate s.width Cell.default],
        row.length = s.width) ∧
      (∀ i, i < s.height - 1 →
        (s.cells.tail ++ [List.replicate s.width Cell.default])[i]? =
          s.cells[i + 1]?) ∧
      (s.cells.tail ++ [List.replicate s.width Cell.default])[s.height - 1]? =
        some (List.replicate s.width Cell.default)) := by
  obtain ⟨hw, hh, h65w, h65h, hlen, hrows⟩ := hwf
  refine ⟨by simp [OverlayState.execute], ?_, ?_⟩
  · intro hy
    have h2 : ¬wrap16 (s.cursor_y + 1) ≥ s.height := by
      unfold wrap16; omega
    have hy16 : wrap16 (s.cursor_y + 1) = s.cursor_y + 1 := by
      unfold wrap16; omega
    simp [OverlayState.execute, h2, hy16]
    intro hcon
    omega
  · intro hcy
    have h2 : wrap16 (s.cursor_y + 1) ≥ s.height := by
      unfold wrap16; omega
    obtain ⟨hsc, hshape'⟩ :=
      scroll_up_spec { s with cursor_y := wrap16 (s.cursor_y + 1) }
        ⟨hw, hh, h65w, h65h, hlen, hrows⟩
    obtain ⟨hlen', hrows'⟩ := hshape'
    refine ⟨?_, hlen', hrows', ?_, ?_⟩
    · have hsub := sub1w_eq s.height hh h65h
      simp [OverlayState.execute, h2, hsc, hsub]
    · intro i hi
      have hitail : i < s.cells.tail.length := by
        simp; omega
      rw [List.getElem?_append, if_pos hitail]
      rcases hc : s.cells with - | ⟨c, rest⟩
      · rw [hc] at hlen; simp at hlen; omega
      · simp
    · have htl : s.cells.tail.length = s.height - 1 := by simp; omega
      rw [List.getElem?_append_right (by omega)]
      simp [htl]

/-- Witness for C3: a 2×2 interpreter with the cursor on the last row. -/
theorem C3_line_discipline_witness :
    ({ OverlayState.new 2 2 with cursor_y := 1 } : OverlayState).execute 0x0D =
      some { OverlayState.new 2 2 with cursor_y := 1, cursor_x := 0 } ∧
    ({ OverlayState.new 2 2 with cursor_y := 1 } : OverlayState).execute 0x0A =
      some { OverlayState.new 2 2 with
        cells := ((OverlayState.new 2 2).cells.tail ++
          [List.replicate 2 Cell.default]),
        cursor_y := 1 } := by
  obtain ⟨hcr, -, hlf⟩ :=
    C3_line_discipline { OverlayState.new 2 2 with cursor_y := 1 } (by decide)
  exact ⟨hcr, (hlf (by decide)).1⟩

/-- C4 as stated is false: CSI `s`, a shrinking `resize`, then CSI `u`
moves the cursor out of the new bounds, because `resize` does not clamp
the saved-cursor slot. -/
theorem C4_cursor_bounds_counterexample :
    ∃ s', applyOps (OverlayState.new 2 2)
        [.event (.csi [[2], [2]] 'H'), .event (.csi [] 's'), .resize 1 1,
          .event (.csi [] 'u')] = some s' ∧
      s'.width = 1 ∧ s'.cursor_x = 1 ∧ ¬(s'.cursor_x < s'.width) := by
  refine ⟨_, rfl, by decide, by decide, by decide⟩

/-- C4 amended: without an intervening `resize`, every sequence of parsed
events — printing, control bytes, and every CSI action including save `s`
and restore `u` — keeps the cursor and the saved cursor within
`[0,width) × [0,height)`; `resize` itself homes the cursor in bounds but
leaves the saved slot unclamped. -/
theorem C4_cursor_bounds_amended (s : OverlayState) (es : List VtEvent)
    (hwf : gridWf s) (hcb : cursorsInBounds s) (hev : ∀ e ∈ es, eventWf e) :
    (∃ s', applyEvents s es = some s' ∧ gridWf s' ∧ cursorsInBounds s') ∧
    (∀ w h : Nat, 0 < w → 0 < h →
      (s.resize w h).cursor_x < w ∧ (s.resize w h).cursor_y < h) := by
  constructor
  · obtain ⟨s', h1, h2, -, -, h5⟩ := applyEvents_spec es s hwf hev
    exact ⟨s', h1, h2, h5 hcb⟩
  · intro w h hw hh
    simp [OverlayState.resize, hw, hh]

/-- Witness for C4's amended statement: a 3×2 interpreter run through a
print, a Line Feed, a cursor move, a save and a restore. -/
theorem C4_cursor_bounds_amended_witness :
    ∃ s', applyEvents (OverlayState.new 3 2)
        [.print 'A', .control 0x0A, .csi [[9], [9]] 'H', .csi [] 's',
          .csi [] 'u'] = some s' ∧ gridWf s' ∧ cursorsInBounds s' :=
  (C4_cursor_bounds_amended (OverlayState.new 3 2)
    [.print 'A', .control 0x0A, .csi [[9], [9]] 'H', .csi [] 's', .csi [] 'u']
    (by decide) (by decide) (by decide)).1

/-- C5: interpreting `"\x1b[31mHi\x1b[0m"` on a fresh interpreter yields
cells `H` and `i` with red foreground in the first two columns, resets the
pending colors to the defaults, and a glyph printed afterwards is written
with the default foreground and background. -/
theorem C5_sgr_round_trip :
    ∃ s1, process_output (OverlayState.new 10 3) (strBytes "\x1b[31mHi\x1b[0m") = some s1 ∧
      (s1.cells.getD 0 []).getD 0 Cell.default = ⟨'H', .Red, .Reset⟩ ∧
      (s1.cells.getD 0 []).getD 1 Cell.default = ⟨'i', .Red, .Reset⟩ ∧
      s1.current_fg_color = .Reset ∧
      s1.current_bg_color = .Reset ∧
      ∃ s2, process_output s1 (strBytes "X") = some s2 ∧
        (s2.cells.getD 0 []).getD 2 Cell.default = ⟨'X', .Reset, .Reset⟩ := by
  refine ⟨_, rfl, by decide, by decide, by decide, by decide, _, rfl, by decide⟩

end Weathr
